import Mathlib

/-!
Shallow embedding of cf-switch (`src/main.rs`), a Cloudflare profile
switcher.  The on-disk JSON configuration is modelled by `Config`
(profiles as an association list with unique keys, mirroring the
`HashMap<String, Profile>`), the environment export file by `EnvFile`,
and each CLI command by a pure function from the loaded `Config` (plus,
for `purge` and `add-lamdera-app`, the external binary's observable
result) to a result record that captures the final in-memory config,
which files were written, the messages printed and the process exit code.
-/

/-- A profile, as in `struct Profile` of the source: email, token and an
optional default zone. -/
structure Profile where
  email : String
  token : String
  zone : Option String
deriving DecidableEq, Repr

/-- The persisted configuration, as in `struct Config` of the source.
The `HashMap<String, Profile>` is modelled as an association list whose
keys are unique (the hash-map invariant); iteration order is irrelevant
because the program always sorts the names before using them. -/
structure Config where
  profiles : List (String × Profile)
  current : Option String
deriving DecidableEq, Repr

/-- The key set of the profile map. -/
def Config.keys (c : Config) : List String := c.profiles.map Prod.fst

/-- `HashMap::contains_key`. -/
def Config.containsKey (c : Config) (n : String) : Bool := c.keys.contains n

/-- `HashMap::get`: lookup of a profile by name. -/
def Config.getProfile (c : Config) (n : String) : Option Profile :=
  (c.profiles.find? (fun kv => kv.1 == n)).map Prod.snd

/-- `Config::default()`: no profiles, no current. -/
def emptyConfig : Config := ⟨[], none⟩

/-- The environment export file written by `write_env_file`, in
structured form: the profile name named in the leading comment and the
three exported values. -/
structure EnvFile where
  profileName : String
  email : String
  apiKey : String
  apiToken : String
deriving DecidableEq, Repr

/-- `write_env_file`: the file content derived from a profile.  The
source writes `CF_API_KEY` and `CF_API_TOKEN` both from `profile.token`. -/
def write_env_file (p : Profile) (name : String) : EnvFile :=
  ⟨name, p.email, p.token, p.token⟩

/-- The exact text `write_env_file` formats into the file. -/
def envFileText (e : EnvFile) : String :=
  "# Cloudflare credentials - profile: " ++ e.profileName ++
    "\nexport CF_API_EMAIL=\"" ++ e.email ++
    "\"\nexport CF_API_KEY=\"" ++ e.apiKey ++
    "\"\nexport CF_API_TOKEN=\"" ++ e.apiToken ++ "\"\n"

/-- `load_config`: the config file is `none` when absent, otherwise its
text; `parse` stands for `serde_json::from_str`.  Absent file or failed
parse both yield the default (empty) configuration. -/
def load_config (file : Option String) (parse : String → Option Config) : Config :=
  match file with
  | none => emptyConfig
  | some content => (parse content).getD emptyConfig

/-- Result of `switch_to_profile`: the updated in-memory config, the
`bool` the function returns, and the two possible file writes (`none`
when the corresponding file is not written). -/
structure SwitchResult where
  config : Config
  ok : Bool
  savedConfig : Option Config
  envFile : Option EnvFile
deriving DecidableEq, Repr

/-- `switch_to_profile`: on a registered name, writes the env file,
sets `current`, saves the config and returns true; otherwise prints an
error and returns false, writing nothing. -/
def switch_to_profile (c : Config) (name : String) : SwitchResult :=
  match c.getProfile name with
  | some p =>
      let c2 : Config := { c with current := some name }
      ⟨c2, true, some c2, some (write_env_file p name)⟩
  | none => ⟨c, false, none, none⟩

/-- Result of one CLI command: final in-memory config, what was written
to the config file and to the env file (`none` = untouched), the
messages printed to stderr, and the process exit code. -/
structure CmdResult where
  config : Config
  savedConfig : Option Config
  envFile : Option EnvFile
  messages : List String
  exitCode : Nat
deriving DecidableEq, Repr

/-- `Iterator::position` on the sorted name list: index of the first
element equal to `c`, if any. -/
def position (l : List String) (c : String) : Option Nat :=
  match l with
  | [] => none
  | x :: xs => if x = c then some 0 else (position xs c).map (· + 1)

/-- Lexicographic comparison of character lists (by code point, which
agrees with Rust's byte-lexicographic `Ord` on `String` because UTF-8
preserves code-point order). -/
def lexLe : List Char → List Char → Bool
  | [], _ => true
  | _ :: _, [] => false
  | a :: as, b :: bs => if a < b then true else if a = b then lexLe as bs else false

/-- Lexicographic order on strings, as used by `names.sort()`. -/
def strLe (a b : String) : Bool := lexLe a.data b.data

/-- The sorting relation, in `Prop` form for `List.insertionSort`. -/
def strLeRel (a b : String) : Prop := strLe a b = true

instance : DecidableRel strLeRel := fun _ _ => instDecidableEqBool _ _

instance : IsTotal String strLeRel where
  total a b := by
    suffices h : ∀ as bs : List Char, lexLe as bs = true ∨ lexLe bs as = true from h a.data b.data
    intro as
    induction as with
    | nil => intro bs; left; rfl
    | cons x xs ih =>
      intro bs
      cases bs with
      | nil => right; rfl
      | cons y ys =>
        rcases lt_trichotomy x y with h | h | h
        · left; simp [lexLe, h]
        · subst h
          rcases ih ys with h2 | h2
          · left; simp [lexLe, h2]
          · right; simp [lexLe, h2]
        · right; simp [lexLe, h]

instance : IsTrans String strLeRel where
  trans a b c hab hbc := by
    suffices h : ∀ as bs cs : List Char,
        lexLe as bs = true → lexLe bs cs = true → lexLe as cs = true from
      h a.data b.data c.data hab hbc
    intro as
    induction as with
    | nil => intro bs cs _ _; rfl
    | cons x xs ih =>
      intro bs cs hab hbc
      cases bs with
      | nil => simp [lexLe] at hab
      | cons y ys =>
        cases cs with
        | nil => simp [lexLe] at hbc
        | cons z zs =>
          by_cases hxy : x < y
          · by_cases hyz : y < z
            · simp [lexLe, lt_trans hxy hyz]
            · by_cases hyz' : y = z
              · subst hyz'; simp [lexLe, hxy]
              · simp [lexLe, hyz, hyz'] at hbc
          · by_cases hxy' : x = y
            · subst hxy'
              simp [lexLe] at hab
              by_cases hxz : x < z
              · simp [lexLe, hxz]
              · by_cases hxz' : x = z
                · subst hxz'
                  simp [lexLe] at hbc ⊢
                  exact ih ys zs hab hbc
                · simp [lexLe, hxz, hxz'] at hbc
            · simp [lexLe, hxy, hxy'] at hab

/-- The sorted profile-name list (`names.sort()` in the source), using
the lexicographic order on `String`. -/
def sortedNames (c : Config) : List String :=
  List.insertionSort strLeRel c.keys

/-- The next-profile selection of the no-subcommand branch: for
`Some(current)`, `names.iter().position(...).unwrap_or(0)` then
`(idx + 1) % names.len()`; for `None`, `names[0]`. -/
def rotateNext (names : List String) (current : Option String) : String :=
  match current with
  | some cur => names.getD (((position names cur).getD 0 + 1) % names.length) ""
  | none => names.getD 0 ""

/-- The index the next-profile selection reads from the sorted name
list: `rotateNext names cur = names.getD (rotStart names cur) ""`. -/
def rotStart (names : List String) (cur : Option String) : Nat :=
  match cur with
  | some c => ((position names c).getD 0 + 1) % names.length
  | none => 0

/-- The no-subcommand branch of `main`: empty config prints a message
and exits 0 touching nothing; otherwise rotates to the next profile and
switches to it (the switch always succeeds, and the exit code is 0). -/
def runRotate (c : Config) : CmdResult :=
  if c.profiles.isEmpty then
    ⟨c, none, none, ["No profiles configured."], 0⟩
  else
    let next := rotateNext (sortedNames c) c.current
    let s := switch_to_profile c next
    ⟨s.config, s.savedConfig, s.envFile, [], 0⟩

/-- The `Add` branch of `main`: fails (exit 1, nothing written) when the
name is already a key, otherwise inserts the new profile and saves. -/
def runAdd (c : Config) (name email token : String) (zone : Option String) : CmdResult :=
  if c.containsKey name then
    ⟨c, none, none, ["Error: Profile already exists."], 1⟩
  else
    let c2 : Config := { c with profiles := c.profiles ++ [(name, ⟨email, token, zone⟩)] }
    ⟨c2, some c2, none, ["Added profile."], 0⟩

/-- The `Remove` branch of `main`: removing an absent name fails (exit
1, nothing written); removing a present name drops its entry, clears
`current` when it named the removed profile, and saves. -/
def runRemove (c : Config) (name : String) : CmdResult :=
  if c.containsKey name then
    let c2 : Config :=
      ⟨c.profiles.filter (fun kv => !(kv.1 == name)),
        if c.current == some name then none else c.current⟩
    ⟨c2, some c2, none, ["Removed profile."], 0⟩
  else
    ⟨c, none, none, ["Error: Profile not found."], 1⟩

/-- The `Use` branch of `main`: switch to the named profile, exit 1 when
it was not found. -/
def runUse (c : Config) (name : String) : CmdResult :=
  let s := switch_to_profile c name
  ⟨s.config, s.savedConfig, s.envFile, [], if s.ok then 0 else 1⟩

/-- What the external binary (`flarectl`) did, when it could be run:
exit status and captured output streams. -/
structure ProcOutput where
  success : Bool
  stdout : String
  stderr : String
deriving DecidableEq, Repr

/-- One subprocess invocation: the argument list and the three
credential environment variables injected from the active profile. -/
structure Invocation where
  args : List String
  envEmail : String
  envToken : String
  envKey : String
deriving DecidableEq, Repr

/-- Does `pat` lead the character list `s`? (helper for substring
containment). -/
def leadsWith : List Char → List Char → Bool
  | [], _ => true
  | _ :: _, [] => false
  | a :: as, b :: bs => a == b && leadsWith as bs

/-- Does `pat` occur somewhere in `s`? (helper for substring
containment). -/
def occursIn (pat : List Char) : List Char → Bool
  | [] => leadsWith pat []
  | c :: rest => leadsWith pat (c :: rest) || occursIn pat rest

/-- Rust `str::contains`: substring containment. -/
def strContains (s pat : String) : Bool := occursIn pat.data s.data

/-- The marker `add-lamdera-app` looks for in the failed subprocess
output. -/
def alreadyExistsMarker : String := "already exists"

/-- Outcome classification of the `Purge` branch. -/
inductive PurgeOutcome where
  | purged (zone : String)
  | purgeFailed (err : String)
  | binaryMissing
  | noZone (profileName : String)
  | danglingCurrent
  | noActiveProfile
deriving DecidableEq, Repr

/-- Result of the `Purge` branch: exit code, the subprocess invocation
when one was made, and the classified outcome. -/
structure PurgeResult where
  exitCode : Nat
  invocation : Option Invocation
  outcome : PurgeOutcome
deriving DecidableEq, Repr

/-- `zone.or_else(|| profile.zone.clone())`: the explicit argument wins,
otherwise the profile's stored default. -/
def resolveZone (arg : Option String) (dflt : Option String) : Option String :=
  match arg with
  | some z => some z
  | none => dflt

/-- The `Purge` branch of `main`.  `ext` is the observable result of the
`flarectl` subprocess (`none` models `Command::output` returning `Err`,
i.e. the binary could not be launched); it is only consumed on the paths
where the source actually invokes the binary, and the invocation made is
recorded in the result. -/
def runPurge (c : Config) (zoneArg : Option String) (ext : Option ProcOutput) : PurgeResult :=
  match c.current with
  | some name =>
      match c.getProfile name with
      | some profile =>
          match resolveZone zoneArg profile.zone with
          | some z =>
              let inv : Invocation :=
                ⟨["zone", "purge", "--zone", z, "--everything"],
                  profile.email, profile.token, profile.token⟩
              match ext with
              | some result =>
                  if result.success then ⟨0, some inv, PurgeOutcome.purged z⟩
                  else ⟨1, some inv, PurgeOutcome.purgeFailed result.stderr⟩
              | none => ⟨1, some inv, PurgeOutcome.binaryMissing⟩
          | none => ⟨1, none, PurgeOutcome.noZone name⟩
      | none => ⟨1, none, PurgeOutcome.danglingCurrent⟩
  | none => ⟨1, none, PurgeOutcome.noActiveProfile⟩

/-- Outcome classification of the `AddLamderaApp` branch. -/
inductive AppOutcome where
  | created (domain : String)
  | alreadyExists (domain : String)
  | createFailed (err : String)
  | binaryMissing
  | noDomain (profileName : String)
  | danglingCurrent
  | noActiveProfile
deriving DecidableEq, Repr

/-- Result of the `AddLamderaApp` branch. -/
structure AppResult where
  exitCode : Nat
  invocation : Option Invocation
  outcome : AppOutcome
deriving DecidableEq, Repr

/-- The `AddLamderaApp` branch of `main`: like `Purge`, but a failed
subprocess whose stderr or stdout contains `"already exists"` is
reported as already-existing with exit code 0. -/
def runAddLamderaApp (c : Config) (domainArg : Option String) (ext : Option ProcOutput) :
    AppResult :=
  match c.current with
  | some name =>
      match c.getProfile name with
      | some profile =>
          match resolveZone domainArg profile.zone with
          | some d =>
              let inv : Invocation :=
                ⟨["dns", "create", "--zone", d, "--type", "CNAME", "--name", "@",
                    "--content", "apps.lamdera.app", "--proxy"],
                  profile.email, profile.token, profile.token⟩
              match ext with
              | some result =>
                  if result.success then ⟨0, some inv, AppOutcome.created d⟩
                  else if strContains result.stderr alreadyExistsMarker ||
                      strContains result.stdout alreadyExistsMarker then
                    ⟨0, some inv, AppOutcome.alreadyExists d⟩
                  else ⟨1, some inv, AppOutcome.createFailed (result.stderr ++ result.stdout)⟩
              | none => ⟨1, some inv, AppOutcome.binaryMissing⟩
          | none => ⟨1, none, AppOutcome.noDomain name⟩
      | none => ⟨1, none, AppOutcome.danglingCurrent⟩
  | none => ⟨1, none, AppOutcome.noActiveProfile⟩

/-- The successive selections of `n` consecutive no-subcommand
rotations over a fixed name list: each rotation selects the next name
and makes it the current one. -/
def rotations (names : List String) : Option String → Nat → List String
  | _, 0 => []
  | cur, Nat.succ k =>
      let s := rotateNext names cur
      s :: rotations names (some s) k

/-- The value of `current` after `n` consecutive rotations over a fixed
name list. -/
def finalCur (names : List String) : Option String → Nat → Option String
  | cur, 0 => cur
  | cur, Nat.succ k => finalCur names (some (rotateNext names cur)) k

/-- `n` consecutive runs of the no-subcommand branch, each starting from
the config produced by the previous one. -/
def iterRotateConfig : Config → Nat → Config
  | c, 0 => c
  | c, Nat.succ k => iterRotateConfig (runRotate c).config k

/-- Concrete two-profile configuration whose `current` names no existing
profile (used to settle C1). -/
def cfgC1 : Config :=
  ⟨[("a", ⟨"a@x.com", "ta", none⟩), ("b", ⟨"b@x.com", "tb", none⟩)], some "zzz"⟩

/-- Concrete two-profile configuration with `current` unset (used to
settle C2). -/
def cfgC2 : Config :=
  ⟨[("a", ⟨"a@x.com", "ta", none⟩), ("b", ⟨"b@x.com", "tb", none⟩)], none⟩

/-- Concrete two-profile configuration with a valid `current` (used to
settle C2). -/
def cfgC2w : Config :=
  ⟨[("b", ⟨"b@x.com", "tb", none⟩), ("a", ⟨"a@x.com", "ta", none⟩)], some "a"⟩

/-- Concrete configuration for the C3 witness. -/
def cfgC3 : Config :=
  ⟨[("a", ⟨"a@x.com", "ta", none⟩), ("b", ⟨"b@x.com", "tb", none⟩)], some "a"⟩

/-- Concrete configuration for the C4 witness. -/
def cfgC4 : Config := ⟨[("a", ⟨"a@x.com", "ta", none⟩)], none⟩

/-- Concrete configuration for the C5 witness. -/
def cfgC5 : Config := ⟨[("w", ⟨"w@x.com", "tw", some "z.com"⟩)], none⟩

/-- Concrete configuration for the C6 witness: active profile without a
default zone. -/
def cfgC6 : Config := ⟨[("w", ⟨"w@x.com", "tw", none⟩)], some "w"⟩

/-- Concrete configuration for the C6 witness: active profile with a
default zone, to exercise argument preference. -/
def cfgC6b : Config := ⟨[("w", ⟨"w@x.com", "tw", some "dz.com"⟩)], some "w"⟩

/-- Concrete configuration for C7: active profile with a default zone. -/
def cfgC7 : Config := ⟨[("w", ⟨"w@x.com", "tw", some "example.com"⟩)], some "w"⟩

/-- Concrete configuration for the C10 witness. -/
def cfgC10 : Config := ⟨[("a", ⟨"a@x.com", "ta", none⟩)], some "a"⟩

theorem containsKey_iff (c : Config) (n : String) : c.containsKey n = true ↔ n ∈ c.keys :=
  List.elem_iff

theorem not_mem_keys (c : Config) (n : String) (h : c.containsKey n = false) : n ∉ c.keys :=
  fun hm => by rw [(containsKey_iff c n).mpr hm] at h; cases h

theorem find?_append_of_none {α : Type} (p : α → Bool) :
    ∀ (l₁ l₂ : List α), l₁.find? p = none → (l₁ ++ l₂).find? p = l₂.find? p := by
  intro l₁ l₂ h
  induction l₁ with
  | nil => rfl
  | cons a tl ih =>
    by_cases hp : p a = true
    · rw [List.find?_cons_of_pos _ hp] at h; cases h
    · rw [List.find?_cons_of_neg _ hp] at h
      rw [List.cons_append, List.find?_cons_of_neg _ hp]
      exact ih h

theorem find?_append_of_some {α : Type} (p : α → Bool) :
    ∀ (l₁ l₂ : List α) (a : α), l₁.find? p = some a → (l₁ ++ l₂).find? p = some a := by
  intro l₁ l₂ a h
  induction l₁ with
  | nil => cases h
  | cons b tl ih =>
    by_cases hp : p b = true
    · rw [List.find?_cons_of_pos _ hp] at h
      rw [List.cons_append, List.find?_cons_of_pos _ hp]
      exact h
    · rw [List.find?_cons_of_neg _ hp] at h
      rw [List.cons_append, List.find?_cons_of_neg _ hp]
      exact ih h

theorem find?_key_eq_none (n : String) :
    ∀ l : List (String × Profile), n ∉ l.map Prod.fst → l.find? (fun kv => kv.1 == n) = none := by
  intro l h
  induction l with
  | nil => rfl
  | cons kv tl ih =>
    simp only [List.map_cons, List.mem_cons] at h
    push_neg at h
    obtain ⟨h1, h2⟩ := h
    rw [List.find?_cons_of_neg _ (by simp only [beq_iff_eq]; exact fun e => h1 e.symm)]
    exact ih h2

theorem getProfile_eq_none (c : Config) (n : String) (h : c.containsKey n = false) :
    c.getProfile n = none := by
  unfold Config.getProfile
  rw [find?_key_eq_none n c.profiles (not_mem_keys c n h)]
  rfl

theorem getProfile_of_mem (c : Config) (n : String) (h : n ∈ c.keys) :
    ∃ p, c.getProfile n = some p := by
  unfold Config.getProfile
  suffices h2 : ∀ l : List (String × Profile), n ∈ l.map Prod.fst →
      ∃ p, ((l.find? (fun kv => kv.1 == n)).map Prod.snd) = some p from h2 c.profiles h
  intro l hl
  induction l with
  | nil => simp at hl
  | cons kv tl ih =>
    by_cases hk : kv.1 = n
    · exact ⟨kv.2, by rw [List.find?_cons_of_pos _ (by simp [hk])]; rfl⟩
    · simp only [List.map_cons, List.mem_cons] at hl
      rcases hl with h1 | h2
      · exact absurd h1.symm hk
      · obtain ⟨p, hp⟩ := ih h2
        exact ⟨p, by rw [List.find?_cons_of_neg _ (by simp [hk])]; exact hp⟩

theorem find?_filter_self (n : String) :
    ∀ l : List (String × Profile),
      ((l.filter (fun kv => !(kv.1 == n))).find? (fun kv => kv.1 == n)) = none := by
  intro l
  induction l with
  | nil => rfl
  | cons kv tl ih =>
    by_cases hk : kv.1 = n
    · rw [List.filter_cons_of_neg (by simp [hk])]
      exact ih
    · rw [List.filter_cons_of_pos (by simp [hk]), List.find?_cons_of_neg _ (by simp [hk])]
      exact ih

theorem find?_filter_other (n k : String) (hnk : k ≠ n) :
    ∀ l : List (String × Profile),
      ((l.filter (fun kv => !(kv.1 == n))).find? (fun kv => kv.1 == k)) =
        l.find? (fun kv => kv.1 == k) := by
  intro l
  induction l with
  | nil => rfl
  | cons kv tl ih =>
    by_cases hk : kv.1 = n
    · rw [List.filter_cons_of_neg (by simp [hk])]
      rw [List.find?_cons_of_neg _ (by simp only [beq_iff_eq, hk]; exact fun e => hnk e.symm)]
      exact ih
    · rw [List.filter_cons_of_pos (by simp [hk])]
      by_cases hkk : kv.1 = k
      · rw [List.find?_cons_of_pos _ (by simp [hkk]), List.find?_cons_of_pos _ (by simp [hkk])]
      · rw [List.find?_cons_of_neg _ (by simp [hkk]), List.find?_cons_of_neg _ (by simp [hkk])]
        exact ih

/-- C8: `load_config` returns the empty configuration (no profiles, no
current) when the config file is absent, and also when the file is
present but its content does not parse, rather than failing. -/
theorem load_config_empty_on_missing_or_unparsable (parse : String → Option Config)
    (content : String) (h : parse content = none) :
    load_config none parse = emptyConfig ∧ load_config (some content) parse = emptyConfig := by
  constructor
  · rfl
  · simp [load_config, h]

theorem load_config_empty_on_missing_or_unparsable_witness :
    load_config none (fun _ => none) = emptyConfig ∧
      load_config (some "not json at all") (fun _ => none) = emptyConfig :=
  load_config_empty_on_missing_or_unparsable (fun _ => none) "not json at all" rfl

/-- C9: with zero profiles, the no-subcommand invocation prints the
informational message, exits 0, and writes neither the config file nor
the env file. -/
theorem rotate_empty_config (c : Config) (h : c.profiles = []) :
    (runRotate c).exitCode = 0 ∧ (runRotate c).savedConfig = none ∧
      (runRotate c).envFile = none ∧ (runRotate c).config = c ∧
      (runRotate c).messages = ["No profiles configured."] := by
  simp [runRotate, h]

theorem rotate_empty_config_witness :
    (runRotate emptyConfig).exitCode = 0 ∧ (runRotate emptyConfig).savedConfig = none ∧
      (runRotate emptyConfig).envFile = none ∧ (runRotate emptyConfig).config = emptyConfig ∧
      (runRotate emptyConfig).messages = ["No profiles configured."] :=
  rotate_empty_config emptyConfig rfl

/-- C4: `add` fails with exit 1 when the name is already a key, leaving
the whole configuration (and so the existing profile's fields) unchanged
and persisting nothing; when the name is new, it inserts the profile and
persists immediately, leaving all other entries and `current` unchanged. -/
theorem add_spec (c : Config) (name email token : String) (zone : Option String) :
    (c.containsKey name = true →
        (runAdd c name email token zone).exitCode = 1 ∧
        (runAdd c name email token zone).savedConfig = none ∧
        (runAdd c name email token zone).envFile = none ∧
        (runAdd c name email token zone).config = c) ∧
    (c.containsKey name = false →
        (runAdd c name email token zone).exitCode = 0 ∧
        (runAdd c name email token zone).savedConfig =
          some (runAdd c name email token zone).config ∧
        (runAdd c name email token zone).config.getProfile name = some ⟨email, token, zone⟩ ∧
        (∀ k, k ≠ name → (runAdd c name email token zone).config.getProfile k =
          c.getProfile k) ∧
        (runAdd c name email token zone).config.current = c.current) := by
  constructor
  · intro h
    simp [runAdd, h]
  · intro h
    have hprof : (runAdd c name email token zone).config.profiles
        = c.profiles ++ [(name, ⟨email, token, zone⟩)] := by simp [runAdd, h]
    have hnone : c.profiles.find? (fun kv => kv.1 == name) = none :=
      find?_key_eq_none name c.profiles (not_mem_keys c name h)
    refine ⟨by simp [runAdd, h], by simp [runAdd, h], ?_, ?_, by simp [runAdd, h]⟩
    · unfold Config.getProfile
      rw [hprof, find?_append_of_none _ _ _ hnone, List.find?_cons_of_pos _ (by simp)]
      rfl
    · intro k hk
      unfold Config.getProfile
      rw [hprof]
      cases hf : c.profiles.find? (fun kv => kv.1 == k) with
      | none =>
          rw [find?_append_of_none _ _ _ hf,
            List.find?_cons_of_neg _ (by simp only [beq_iff_eq]; exact fun e => hk e.symm)]
          rfl
      | some kv => rw [find?_append_of_some _ _ _ _ hf]

theorem add_spec_witness :
    (runAdd cfgC4 "a" "x@x.com" "tx" none).exitCode = 1 ∧
    (runAdd cfgC4 "a" "x@x.com" "tx" none).config = cfgC4 ∧
    (runAdd cfgC4 "b" "x@x.com" "tx" none).exitCode = 0 ∧
    (runAdd cfgC4 "b" "x@x.com" "tx" none).config.getProfile "b" =
      some ⟨"x@x.com", "tx", none⟩ := by
  have h1 := (add_spec cfgC4 "a" "x@x.com" "tx" none).1 (by decide)
  have h2 := (add_spec cfgC4 "b" "x@x.com" "tx" none).2 (by decide)
  exact ⟨h1.1, h1.2.2.2, h2.1, h2.2.2.1⟩

/-- C3: `remove` of an absent name fails with exit 1 and persists
nothing; `remove` of a present name drops exactly that entry, persists,
and clears `current` precisely when it named the removed profile,
leaving it unchanged otherwise. -/
theorem remove_spec (c : Config) (name : String) :
    (c.containsKey name = false →
        (runRemove c name).exitCode = 1 ∧ (runRemove c name).savedConfig = none ∧
        (runRemove c name).envFile = none ∧ (runRemove c name).config = c) ∧
    (c.containsKey name = true →
        (runRemove c name).exitCode = 0 ∧
        (runRemove c name).savedConfig = some (runRemove c name).config ∧
        (runRemove c name).envFile = none ∧
        (runRemove c name).config.getProfile name = none ∧
        (∀ k, k ≠ name → (runRemove c name).config.getProfile k = c.getProfile k) ∧
        (runRemove c name).config.current =
          (if c.current = some name then none else c.current)) := by
  constructor
  · intro h; simp [runRemove, h]
  · intro h
    have hprof : (runRemove c name).config.profiles
        = c.profiles.filter (fun kv => !(kv.1 == name)) := by simp [runRemove, h]
    have hcur : (runRemove c name).config.current
        = (if c.current == some name then none else c.current) := by simp [runRemove, h]
    refine ⟨by simp [runRemove, h], by simp [runRemove, h], by simp [runRemove, h], ?_, ?_, ?_⟩
    · unfold Config.getProfile
      rw [hprof, find?_filter_self]
      rfl
    · intro k hk
      unfold Config.getProfile
      rw [hprof, find?_filter_other name k hk]
    · rw [hcur]
      by_cases hc : c.current = some name
      · simp [hc]
      · simp [beq_iff_eq, hc]

theorem remove_spec_witness :
    (runRemove cfgC3 "zzz").exitCode = 1 ∧
    (runRemove cfgC3 "a").exitCode = 0 ∧
    (runRemove cfgC3 "a").config.getProfile "a" = none ∧
    (runRemove cfgC3 "a").config.getProfile "b" = cfgC3.getProfile "b" ∧
    (runRemove cfgC3 "a").config.current =
      (if cfgC3.current = some "a" then none else cfgC3.current) := by
  have h1 := (remove_spec cfgC3 "zzz").1 (by decide)
  have h2 := (remove_spec cfgC3 "a").2 (by decide)
  exact ⟨h1.1, h2.1, h2.2.2.2.1, h2.2.2.2.2.1 "b" (by decide), h2.2.2.2.2.2⟩

/-- C10: neither `add` nor `remove` ever writes the environment export
file; in particular removing the currently active profile clears
`current` and persists the configuration while leaving the export file
untouched (so it still holds the removed profile's credentials). -/
theorem add_remove_never_write_env (c : Config) (name email token : String)
    (zone : Option String) :
    (runAdd c name email token zone).envFile = none ∧
    (runRemove c name).envFile = none ∧
    (c.containsKey name = true → c.current = some name →
        (runRemove c name).config.current = none ∧
        (runRemove c name).savedConfig = some (runRemove c name).config ∧
        (runRemove c name).envFile = none) := by
  refine ⟨?_, ?_, ?_⟩
  · unfold runAdd; split <;> rfl
  · unfold runRemove; split <;> rfl
  · intro h hcur
    refine ⟨?_, by simp [runRemove, h], by unfold runRemove; split <;> rfl⟩
    simp [runRemove, h, hcur]

theorem add_remove_never_write_env_witness :
    (runAdd cfgC10 "b" "x@x.com" "tx" none).envFile = none ∧
    (runRemove cfgC10 "a").envFile = none ∧
    (runRemove cfgC10 "a").config.current = none ∧
    (runRemove cfgC10 "a").savedConfig = some (runRemove cfgC10 "a").config := by
  have hb := add_remove_never_write_env cfgC10 "b" "x@x.com" "tx" none
  have ha := add_remove_never_write_env cfgC10 "a" "x@x.com" "tx" none
  obtain ⟨-, henv, h3⟩ := ha
  obtain ⟨h4, h5, -⟩ := h3 (by decide) (by decide)
  exact ⟨hb.1, henv, h4, h5⟩

/-- C5: activating a registered profile changes no profile entry, sets
`current` to it, persists, and rewrites the env file to exactly the
comment naming the profile plus the three export lines with the API key
and API token both equal to the profile's token; activating an
unregistered name exits 1 and changes neither the config nor the env
file. -/
theorem activation_spec (c : Config) (name : String) :
    (∀ p, c.getProfile name = some p →
        (switch_to_profile c name).config.profiles = c.profiles ∧
        (switch_to_profile c name).config.current = some name ∧
        (switch_to_profile c name).savedConfig = some (switch_to_profile c name).config ∧
        (switch_to_profile c name).envFile = some (write_env_file p name) ∧
        (write_env_file p name).profileName = name ∧
        (write_env_file p name).apiKey = p.token ∧
        (write_env_file p name).apiToken = p.token ∧
        envFileText (write_env_file p name) =
          "# Cloudflare credentials - profile: " ++ name ++ "\nexport CF_API_EMAIL=\"" ++
            p.email ++ "\"\nexport CF_API_KEY=\"" ++ p.token ++ "\"\nexport CF_API_TOKEN=\"" ++
            p.token ++ "\"\n" ∧
        (runUse c name).exitCode = 0) ∧
    (c.getProfile name = none →
        (runUse c name).exitCode = 1 ∧ (runUse c name).config = c ∧
        (runUse c name).envFile = none ∧ (runUse c name).savedConfig = none) := by
  constructor
  · intro p hp
    simp [switch_to_profile, runUse, hp, write_env_file, envFileText]
  · intro h
    simp [switch_to_profile, runUse, h]

theorem activation_spec_witness :
    (switch_to_profile cfgC5 "w").config.current = some "w" ∧
    (switch_to_profile cfgC5 "w").config.profiles = cfgC5.profiles ∧
    (switch_to_profile cfgC5 "w").envFile =
      some (write_env_file ⟨"w@x.com", "tw", some "z.com"⟩ "w") ∧
    (runUse cfgC5 "zzz").exitCode = 1 := by
  have h1 := (activation_spec cfgC5 "w").1 ⟨"w@x.com", "tw", some "z.com"⟩ (by decide)
  have h2 := (activation_spec cfgC5 "zzz").2 (by decide)
  exact ⟨h1.2.1, h1.1, h1.2.2.2.1, h2.1⟩

/-- C6: with an active, existing profile, both `purge` and
`add-lamdera-app` resolve their target zone/domain preferring the
explicit argument over the profile's stored default; when the argument
is absent and the profile has no default zone, they fail with the
distinct no-zone outcome and exit 1 without invoking the external
binary. -/
theorem zone_resolution_spec (c : Config) (curName : String) (p : Profile)
    (ext : Option ProcOutput)
    (hcur : c.current = some curName) (hp : c.getProfile curName = some p) :
    (∀ z, (runPurge c (some z) ext).invocation =
        some ⟨["zone", "purge", "--zone", z, "--everything"], p.email, p.token, p.token⟩) ∧
    (∀ dz, p.zone = some dz → (runPurge c none ext).invocation =
        some ⟨["zone", "purge", "--zone", dz, "--everything"], p.email, p.token, p.token⟩) ∧
    (p.zone = none →
        (runPurge c none ext).exitCode = 1 ∧
        (runPurge c none ext).invocation = none ∧
        (runPurge c none ext).outcome = PurgeOutcome.noZone curName) ∧
    (∀ d, (runAddLamderaApp c (some d) ext).invocation =
        some ⟨["dns", "create", "--zone", d, "--type", "CNAME", "--name", "@",
          "--content", "apps.lamdera.app", "--proxy"], p.email, p.token, p.token⟩) ∧
    (∀ dz, p.zone = some dz → (runAddLamderaApp c none ext).invocation =
        some ⟨["dns", "create", "--zone", dz, "--type", "CNAME", "--name", "@",
          "--content", "apps.lamdera.app", "--proxy"], p.email, p.token, p.token⟩) ∧
    (p.zone = none →
        (runAddLamderaApp c none ext).exitCode = 1 ∧
        (runAddLamderaApp c none ext).invocation = none ∧
        (runAddLamderaApp c none ext).outcome = AppOutcome.noDomain curName) := by
  refine ⟨?_, ?_, ?_, ?_, ?_, ?_⟩
  · intro z
    cases ext with
    | none => simp [runPurge, hcur, hp, resolveZone]
    | some r => cases hr : r.success <;> simp [runPurge, hcur, hp, resolveZone, hr]
  · intro dz hz
    cases ext with
    | none => simp [runPurge, hcur, hp, resolveZone, hz]
    | some r => cases hr : r.success <;> simp [runPurge, hcur, hp, resolveZone, hz, hr]
  · intro hz
    simp [runPurge, hcur, hp, resolveZone, hz]
  · intro d
    cases ext with
    | none => simp [runAddLamderaApp, hcur, hp, resolveZone]
    | some r =>
        cases hr : r.success
        · by_cases hm : (strContains r.stderr alreadyExistsMarker ||
              strContains r.stdout alreadyExistsMarker) = true <;>
            simp [runAddLamderaApp, hcur, hp, resolveZone, hr, hm]
        · simp [runAddLamderaApp, hcur, hp, resolveZone, hr]
  · intro dz hz
    cases ext with
    | none => simp [runAddLamderaApp, hcur, hp, resolveZone, hz]
    | some r =>
        cases hr : r.success
        · by_cases hm : (strContains r.stderr alreadyExistsMarker ||
              strContains r.stdout alreadyExistsMarker) = true <;>
            simp [runAddLamderaApp, hcur, hp, resolveZone, hz, hr, hm]
        · simp [runAddLamderaApp, hcur, hp, resolveZone, hz, hr]
  · intro hz
    simp [runAddLamderaApp, hcur, hp, resolveZone, hz]

theorem zone_resolution_spec_witness :
    (runPurge cfgC6 (some "arg.com") none).invocation =
      some ⟨["zone", "purge", "--zone", "arg.com", "--everything"], "w@x.com", "tw", "tw"⟩ ∧
    (runPurge cfgC6 none none).exitCode = 1 ∧
    (runPurge cfgC6 none none).invocation = none ∧
    (runPurge cfgC6 none none).outcome = PurgeOutcome.noZone "w" ∧
    (runAddLamderaApp cfgC6 none none).exitCode = 1 ∧
    (runAddLamderaApp cfgC6 none none).invocation = none ∧
    (runPurge cfgC6b (some "arg.com") none).invocation =
      some ⟨["zone", "purge", "--zone", "arg.com", "--everything"], "w@x.com", "tw", "tw"⟩ ∧
    (runPurge cfgC6b none none).invocation =
      some ⟨["zone", "purge", "--zone", "dz.com", "--everything"], "w@x.com", "tw", "tw"⟩ := by
  have h := zone_resolution_spec cfgC6 "w" ⟨"w@x.com", "tw", none⟩ none rfl (by decide)
  have hb := zone_resolution_spec cfgC6b "w" ⟨"w@x.com", "tw", some "dz.com"⟩ none rfl (by decide)
  obtain ⟨h1, -, h3, -, -, h6⟩ := h
  obtain ⟨h3a, h3b, h3c⟩ := h3 rfl
  obtain ⟨h6a, h6b, -⟩ := h6 rfl
  exact ⟨h1 "arg.com", h3a, h3b, h3c, h6a, h6b, hb.1 "arg.com", hb.2.1 "dz.com" rfl⟩

/-- C7 (counterexample): a failing subprocess output whose combined
stderr-then-stdout text contains the marker only across the stream
boundary is NOT treated as already-existing: the command exits 1, while
the claim predicts exit 0 whenever the combined output contains the
marker. -/
theorem app_marker_combined_counterexample :
    strContains ("already ex" ++ "ists") alreadyExistsMarker = true ∧
    (runAddLamderaApp cfgC7 (some "example.com")
        (some ⟨false, "ists", "already ex"⟩)).exitCode = 1 ∧
    (runAddLamderaApp cfgC7 (some "example.com")
        (some ⟨false, "ists", "already ex"⟩)).outcome =
      AppOutcome.createFailed ("already ex" ++ "ists") := by decide

/-- C7 (amended): a failing subprocess is reported as already-existing
with exit 0 exactly when the stderr or the stdout stream individually
contains the marker; otherwise the error text (stderr then stdout) is
surfaced and the command exits 1. -/
theorem app_output_classification (c : Config) (curName : String) (p : Profile) (d : String)
    (dArg : Option String) (out : ProcOutput)
    (hcur : c.current = some curName) (hp : c.getProfile curName = some p)
    (hd : resolveZone dArg p.zone = some d) (hfail : out.success = false) :
    ((strContains out.stderr alreadyExistsMarker ||
        strContains out.stdout alreadyExistsMarker) = true →
      (runAddLamderaApp c dArg (some out)).exitCode = 0 ∧
      (runAddLamderaApp c dArg (some out)).outcome = AppOutcome.alreadyExists d) ∧
    ((strContains out.stderr alreadyExistsMarker ||
        strContains out.stdout alreadyExistsMarker) = false →
      (runAddLamderaApp c dArg (some out)).exitCode = 1 ∧
      (runAddLamderaApp c dArg (some out)).outcome =
        AppOutcome.createFailed (out.stderr ++ out.stdout)) := by
  constructor <;> intro hm <;> simp [runAddLamderaApp, hcur, hp, hd, hfail, hm]

theorem app_output_classification_witness :
    (runAddLamderaApp cfgC7 none (some ⟨false, "", "record already exists"⟩)).exitCode = 0 ∧
    (runAddLamderaApp cfgC7 none (some ⟨false, "", "record already exists"⟩)).outcome =
      AppOutcome.alreadyExists "example.com" := by
  have h := app_output_classification cfgC7 "w" ⟨"w@x.com", "tw", some "example.com"⟩
      "example.com" none ⟨false, "", "record already exists"⟩ rfl (by decide) rfl rfl
  exact h.1 (by decide)

theorem position_eq_none_of_not_mem (l : List String) (c : String) (h : c ∉ l) :
    position l c = none := by
  induction l with
  | nil => rfl
  | cons x xs ih =>
    simp only [List.mem_cons] at h
    push_neg at h
    have hx : ¬ (x = c) := fun e => h.1 e.symm
    simp [position, hx, ih h.2]

theorem position_get : ∀ (l : List String), l.Nodup →
    ∀ (i : Nat) (hi : i < l.length), position l (l.get ⟨i, hi⟩) = some i := by
  intro l
  induction l with
  | nil => intro _ i hi; exact absurd hi (by simp)
  | cons x xs ih =>
    intro hnd i hi
    cases i with
    | zero => simp [position]
    | succ j =>
      have hj : j < xs.length := by simpa using hi
      have hx : x ∉ xs := (List.nodup_cons.mp hnd).1
      have hget : (x :: xs).get ⟨j + 1, hi⟩ = xs.get ⟨j, hj⟩ := rfl
      rw [hget]
      have hne : ¬ (x = xs.get ⟨j, hj⟩) := fun e => hx (e ▸ List.get_mem xs j hj)
      have hrec := ih (List.nodup_cons.mp hnd).2 j hj
      simp only [List.get_eq_getElem] at hne hrec
      simp [position, hne, hrec]

theorem rotateNext_eq_getD (names : List String) (cur : Option String) :
    rotateNext names cur = names.getD (rotStart names cur) "" := by
  cases cur <;> rfl

theorem rotStart_lt (names : List String) (cur : Option String) (h : 0 < names.length) :
    rotStart names cur < names.length := by
  cases cur with
  | none => simpa [rotStart] using h
  | some c =>
      simp only [rotStart]
      exact Nat.mod_lt _ h

theorem rotateNext_mem (names : List String) (cur : Option String) (h : 0 < names.length) :
    rotateNext names cur ∈ names := by
  rw [rotateNext_eq_getD, List.getD_eq_getElem _ _ (rotStart_lt names cur h)]
  exact List.getElem_mem _

theorem rotateNext_get (names : List String) (hnd : names.Nodup) (i : Nat)
    (hi : i < names.length) :
    rotateNext names (some (names.get ⟨i, hi⟩)) = names.getD ((i + 1) % names.length) "" := by
  have hpi := position_get names hnd i hi
  simp only [List.get_eq_getElem] at hpi
  simp [rotateNext, hpi]

theorem rotateNext_getD (names : List String) (hnd : names.Nodup) (j : Nat)
    (hj : j < names.length) :
    rotateNext names (some (names.getD j "")) = names.getD ((j + 1) % names.length) "" := by
  have h1 : names.getD j "" = names.get ⟨j, hj⟩ := by
    rw [List.getD_eq_getElem _ _ hj, List.get_eq_getElem]
  rw [h1, rotateNext_get names hnd j hj]

theorem sortedNames_perm (c : Config) : (sortedNames c).Perm c.keys :=
  List.perm_insertionSort strLeRel c.keys

theorem sortedNames_sorted (c : Config) : List.Sorted strLeRel (sortedNames c) :=
  List.sorted_insertionSort strLeRel c.keys

theorem sortedNames_pos (c : Config) (h : c.profiles ≠ []) : 0 < (sortedNames c).length := by
  rw [(sortedNames_perm c).length_eq]
  simpa [Config.keys] using List.length_pos.mpr h

theorem sortedNames_nodup (c : Config) (h : c.keys.Nodup) : (sortedNames c).Nodup :=
  (sortedNames_perm c).symm.nodup h

theorem runRotate_nonempty (c : Config) (hne : c.profiles ≠ []) :
    (runRotate c).config = ⟨c.profiles, some (rotateNext (sortedNames c) c.current)⟩ ∧
    (runRotate c).exitCode = 0 ∧
    (runRotate c).savedConfig = some (runRotate c).config ∧
    (∃ p, c.getProfile (rotateNext (sortedNames c) c.current) = some p ∧
      (runRotate c).envFile = some (write_env_file p (rotateNext (sortedNames c) c.current))) := by
  have hmem : rotateNext (sortedNames c) c.current ∈ c.keys :=
    (sortedNames_perm c).subset (rotateNext_mem _ _ (sortedNames_pos c hne))
  obtain ⟨p, hp⟩ := getProfile_of_mem c _ hmem
  have hempty : c.profiles.isEmpty = false := by
    cases hcp : c.profiles with
    | nil => exact absurd hcp hne
    | cons a l => rfl
  refine ⟨?_, ?_, ?_, ⟨p, hp, ?_⟩⟩ <;> simp [runRotate, hempty, switch_to_profile, hp]

theorem iterRotate_spec : ∀ (n : Nat) (c : Config), c.profiles ≠ [] →
    (iterRotateConfig c n).profiles = c.profiles ∧
    (iterRotateConfig c n).current = finalCur (sortedNames c) c.current n := by
  intro n
  induction n with
  | zero => intro c _; exact ⟨rfl, rfl⟩
  | succ k ih =>
    intro c hne
    have h1 := runRotate_nonempty c hne
    have hcfg : (runRotate c).config
        = ⟨c.profiles, some (rotateNext (sortedNames c) c.current)⟩ := h1.1
    have hne2 : (runRotate c).config.profiles ≠ [] := by rw [hcfg]; exact hne
    have ih2 := ih (runRotate c).config hne2
    have hsort : sortedNames (runRotate c).config = sortedNames c := by
      unfold sortedNames Config.keys
      rw [hcfg]
    constructor
    · show (iterRotateConfig (runRotate c).config k).profiles = c.profiles
      rw [ih2.1, hcfg]
    · show (iterRotateConfig (runRotate c).config k).current
        = finalCur (sortedNames c) c.current (k + 1)
      rw [ih2.2, hsort, hcfg]
      rfl

theorem finalCur_getD (names : List String) (hnd : names.Nodup) (hpos : 0 < names.length) :
    ∀ (k j : Nat), j < names.length →
      finalCur names (some (names.getD j "")) k
        = some (names.getD ((j + k) % names.length) "") := by
  intro k
  induction k with
  | zero =>
    intro j hj
    simp [finalCur, Nat.mod_eq_of_lt hj]
  | succ m ih =>
    intro j hj
    calc finalCur names (some (names.getD j "")) (m + 1)
        = finalCur names (some (rotateNext names (some (names.getD j "")))) m := rfl
      _ = finalCur names (some (names.getD ((j + 1) % names.length) "")) m := by
            rw [rotateNext_getD names hnd j hj]
      _ = some (names.getD (((j + 1) % names.length + m) % names.length) "") :=
            ih _ (Nat.mod_lt _ hpos)
      _ = some (names.getD ((j + (m + 1)) % names.length) "") := by
            rw [Nat.mod_add_mod]
            have harith : j + 1 + m = j + (m + 1) := by omega
            rw [harith]

theorem rotations_getD (names : List String) (hnd : names.Nodup) (hpos : 0 < names.length) :
    ∀ (k j : Nat), j < names.length →
      rotations names (some (names.getD j "")) k =
        (List.range k).map (fun t => names.getD ((j + 1 + t) % names.length) "") := by
  intro k
  induction k with
  | zero => intro j _; rfl
  | succ m ih =>
    intro j hj
    have hstep : rotations names (some (names.getD j "")) (m + 1)
        = names.getD ((j + 1) % names.length) "" ::
            rotations names (some (names.getD ((j + 1) % names.length) "")) m := by
      show rotateNext names (some (names.getD j "")) ::
          rotations names (some (rotateNext names (some (names.getD j "")))) m = _
      rw [rotateNext_getD names hnd j hj]
    rw [hstep, ih _ (Nat.mod_lt _ hpos), List.range_succ_eq_map, List.map_cons, List.map_map]
    congr 1
    apply List.map_congr_left
    intro t _
    show names.getD (((j + 1) % names.length + 1 + t) % names.length) ""
        = names.getD ((j + 1 + Nat.succ t) % names.length) ""
    congr 1
    rw [Nat.add_assoc ((j + 1) % names.length) 1 t, Nat.mod_add_mod]
    have harith : j + 1 + (1 + t) = j + 1 + Nat.succ t := by omega
    rw [harith]

theorem rotations_full (names : List String) (hnd : names.Nodup) (hpos : 0 < names.length)
    (cur : Option String) (k : Nat) :
    rotations names cur (k + 1) =
      (List.range (k + 1)).map
        (fun t => names.getD ((rotStart names cur + t) % names.length) "") := by
  have hj0 : rotStart names cur < names.length := rotStart_lt names cur hpos
  have h0 : rotations names cur (k + 1)
      = names.getD (rotStart names cur) "" ::
          rotations names (some (names.getD (rotStart names cur) "")) k := by
    show rotateNext names cur :: rotations names (some (rotateNext names cur)) k = _
    rw [rotateNext_eq_getD]
  rw [h0, rotations_getD names hnd hpos k _ hj0, List.range_succ_eq_map, List.map_cons,
    List.map_map]
  congr 1
  · congr 1
    rw [Nat.add_zero]
    exact (Nat.mod_eq_of_lt hj0).symm
  · apply List.map_congr_left
    intro t _
    show names.getD ((rotStart names cur + 1 + t) % names.length) ""
        = names.getD ((rotStart names cur + Nat.succ t) % names.length) ""
    congr 2
    omega

theorem rotations_length (names : List String) (hnd : names.Nodup) (hpos : 0 < names.length)
    (cur : Option String) :
    rotations names cur names.length =
      (List.range names.length).map
        (fun t => names.getD ((rotStart names cur + t) % names.length) "") := by
  obtain ⟨m, hm⟩ : ∃ m, names.length = m + 1 := ⟨names.length - 1, by omega⟩
  calc rotations names cur names.length = rotations names cur (m + 1) := by rw [hm]
    _ = (List.range (m + 1)).map
          (fun t => names.getD ((rotStart names cur + t) % names.length) "") :=
        rotations_full names hnd hpos cur m
    _ = (List.range names.length).map
          (fun t => names.getD ((rotStart names cur + t) % names.length) "") := by rw [hm]

theorem map_range_eq_rotate (names : List String) (hpos : 0 < names.length) (j0 : Nat) :
    (List.range names.length).map (fun t => names.getD ((j0 + t) % names.length) "") =
      names.rotate j0 := by
  apply List.ext_get
  · simp [List.length_rotate]
  · intro t h1 h2
    have e1 : ((List.range names.length).map
        (fun u => names.getD ((j0 + u) % names.length) "")).get ⟨t, h1⟩
        = names.getD ((j0 + t) % names.length) "" := by
      simp
    have e2 : (names.rotate j0).get ⟨t, h2⟩
        = names.get ⟨(t + j0) % names.length, Nat.mod_lt _ hpos⟩ := by
      rw [List.get_rotate]
    rw [e1, e2, List.getD_eq_getElem _ _ (Nat.mod_lt _ hpos), List.get_eq_getElem]
    congr 1
    rw [Nat.add_comm]

theorem finalCur_length_of_get (names : List String) (hnd : names.Nodup)
    (hpos : 0 < names.length) (i : Nat) (hi : i < names.length) :
    finalCur names (some (names.get ⟨i, hi⟩)) names.length = some (names.get ⟨i, hi⟩) := by
  obtain ⟨m, hm⟩ : ∃ m, names.length = m + 1 := ⟨names.length - 1, by omega⟩
  have hstep : finalCur names (some (names.get ⟨i, hi⟩)) names.length
      = finalCur names (some (names.getD ((i + 1) % names.length) "")) m := by
    calc finalCur names (some (names.get ⟨i, hi⟩)) names.length
        = finalCur names (some (names.get ⟨i, hi⟩)) (m + 1) :=
          congrArg (fun n => finalCur names (some (names.get ⟨i, hi⟩)) n) hm
      _ = finalCur names (some (rotateNext names (some (names.get ⟨i, hi⟩)))) m := rfl
      _ = finalCur names (some (names.getD ((i + 1) % names.length) "")) m := by
            rw [rotateNext_get names hnd i hi]
  rw [hstep, finalCur_getD names hnd hpos m _ (Nat.mod_lt _ hpos)]
  have harith : ((i + 1) % names.length + m) % names.length = i := by
    rw [Nat.mod_add_mod]
    have h1 : i + 1 + m = i + (m + 1) := by omega
    rw [h1, ← hm, Nat.add_mod_right]
    exact Nat.mod_eq_of_lt hi
  rw [harith, List.getD_eq_getElem _ _ hi, List.get_eq_getElem]

/-- C1 (counterexample): in a two-profile configuration whose `current`
names no existing profile, the rotation selects "b", the second sorted
name, not "a", the lexicographically first one the claim predicts (the
code defaults the missing index to 0, not -1). -/
theorem rotate_dangling_counterexample :
    sortedNames cfgC1 = ["a", "b"] ∧
    cfgC1.current = some "zzz" ∧
    (sortedNames cfgC1).contains "zzz" = false ∧
    (runRotate cfgC1).config.current = some "b" ∧
    ("b" : String) ≠ "a" := by decide

/-- C1 (amended): the no-subcommand rotation sorts the profile names
lexicographically, and activates (sets `current` to, saves, and writes
the env file for) the name at index `(idx + 1) mod count`, where `idx`
is the index of `current` in the sorted order when present, 0 when
`current` is set but names no existing profile, and where an unset
`current` directly selects the first sorted name. -/
theorem rotate_selection_rule (c : Config) (hne : c.profiles ≠ []) (hnd : c.keys.Nodup) :
    (runRotate c).exitCode = 0 ∧
    List.Sorted strLeRel (sortedNames c) ∧
    (sortedNames c).Perm c.keys ∧
    (runRotate c).config.profiles = c.profiles ∧
    (runRotate c).config.current = some (rotateNext (sortedNames c) c.current) ∧
    (∃ p, c.getProfile (rotateNext (sortedNames c) c.current) = some p ∧
        (runRotate c).envFile = some (write_env_file p (rotateNext (sortedNames c) c.current)) ∧
        (runRotate c).savedConfig = some (runRotate c).config) ∧
    (c.current = none → rotateNext (sortedNames c) c.current = (sortedNames c).getD 0 "") ∧
    (∀ cur i (hi : i < (sortedNames c).length), c.current = some cur →
        (sortedNames c).get ⟨i, hi⟩ = cur →
        rotateNext (sortedNames c) c.current =
          (sortedNames c).getD ((i + 1) % (sortedNames c).length) "") ∧
    (∀ cur, c.current = some cur → cur ∉ sortedNames c →
        rotateNext (sortedNames c) c.current =
          (sortedNames c).getD (1 % (sortedNames c).length) "") := by
  obtain ⟨hcfg, hexit, hsave, p, hp, henv⟩ := runRotate_nonempty c hne
  refine ⟨hexit, sortedNames_sorted c, sortedNames_perm c, ?_, ?_, ⟨p, hp, henv, hsave⟩,
    ?_, ?_, ?_⟩
  · rw [hcfg]
  · rw [hcfg]
  · intro h
    rw [h]
    rfl
  · intro cur i hi hcur hget
    rw [hcur, ← hget]
    exact rotateNext_get (sortedNames c) (sortedNames_nodup c hnd) i hi
  · intro cur hcur hmem
    rw [hcur]
    show (sortedNames c).getD (((position (sortedNames c) cur).getD 0 + 1) %
      (sortedNames c).length) "" = _
    rw [position_eq_none_of_not_mem _ _ hmem]
    rfl

theorem rotate_selection_rule_witness :
    (runRotate cfgC1).exitCode = 0 ∧
    (runRotate cfgC1).config.current = some (rotateNext (sortedNames cfgC1) cfgC1.current) ∧
    rotateNext (sortedNames cfgC1) cfgC1.current =
      (sortedNames cfgC1).getD (1 % (sortedNames cfgC1).length) "" := by
  have h := rotate_selection_rule cfgC1 (by decide) (by decide)
  exact ⟨h.1, h.2.2.2.2.1, h.2.2.2.2.2.2.2.2 "zzz" rfl (by decide)⟩

/-- C2 (counterexample): with two profiles and `current` unset, the two
rotations select "a" then "b" (each profile once), but the final
`current` is "b": it equals neither the starting value (unset) nor the
first rotation's selection "a", so the claimed final state fails for
this starting value. -/
theorem rotation_cycle_counterexample :
    cfgC2.current = none ∧
    rotations (sortedNames cfgC2) cfgC2.current 2 = ["a", "b"] ∧
    (iterRotateConfig cfgC2 2).current = some "b" ∧
    (some "b" ≠ some "a") ∧
    (iterRotateConfig cfgC2 2).current ≠ cfgC2.current := by decide

/-- C2 (amended): over the N sorted names, N consecutive rotations set
`current` to each profile exactly once (the selections are a permutation
of the sorted names); when the starting `current` names an existing
profile the N rotations return `current` to that starting value; and in
general the cycle closes: an (N+1)-th rotation would repeat the first
selection, wrapping from the lexicographically last profile back to the
first. -/
theorem rotation_cycle_spec (c : Config) (hne : c.profiles ≠ []) (hnd : c.keys.Nodup) :
    (∀ k, k < (sortedNames c).length →
        (iterRotateConfig c (k + 1)).current =
          some ((rotations (sortedNames c) c.current (sortedNames c).length).getD k "")) ∧
    (rotations (sortedNames c) c.current (sortedNames c).length).Perm (sortedNames c) ∧
    (∀ cur, c.current = some cur → cur ∈ sortedNames c →
        (iterRotateConfig c (sortedNames c).length).current = some cur) ∧
    rotations (sortedNames c) c.current ((sortedNames c).length + 1) =
      rotations (sortedNames c) c.current (sortedNames c).length ++
        [(rotations (sortedNames c) c.current (sortedNames c).length).getD 0 ""] := by
  have hpos : 0 < (sortedNames c).length := sortedNames_pos c hne
  have hndn : (sortedNames c).Nodup := sortedNames_nodup c hnd
  have hj0 : rotStart (sortedNames c) c.current < (sortedNames c).length :=
    rotStart_lt _ _ hpos
  refine ⟨?_, ?_, ?_, ?_⟩
  · intro k hk
    rw [(iterRotate_spec (k + 1) c hne).2]
    have hstep : finalCur (sortedNames c) c.current (k + 1)
        = finalCur (sortedNames c)
            (some ((sortedNames c).getD (rotStart (sortedNames c) c.current) "")) k := by
      show finalCur (sortedNames c) (some (rotateNext (sortedNames c) c.current)) k = _
      rw [rotateNext_eq_getD]
    rw [hstep, finalCur_getD _ hndn hpos k _ hj0, rotations_length _ hndn hpos c.current]
    have hrhs : ((List.range (sortedNames c).length).map
        (fun t => (sortedNames c).getD
          ((rotStart (sortedNames c) c.current + t) % (sortedNames c).length) "")).getD k ""
        = (sortedNames c).getD
            ((rotStart (sortedNames c) c.current + k) % (sortedNames c).length) "" := by
      rw [List.getD_eq_getElem _ _ (by simpa using hk)]
      simp [List.getD_eq_getElem _ _ (Nat.mod_lt _ hpos)]
    rw [hrhs]
  · rw [rotations_length _ hndn hpos c.current, map_range_eq_rotate _ hpos _]
    exact List.rotate_perm _ _
  · intro cur hcur hmem
    obtain ⟨⟨i, hi⟩, hget⟩ := List.mem_iff_get.mp hmem
    rw [(iterRotate_spec (sortedNames c).length c hne).2, hcur, ← hget]
    exact finalCur_length_of_get _ hndn hpos i hi
  · rw [rotations_full _ hndn hpos c.current (sortedNames c).length,
      rotations_length _ hndn hpos c.current, List.range_succ, List.map_append]
    have h0 : ((List.range (sortedNames c).length).map
        (fun t => (sortedNames c).getD
          ((rotStart (sortedNames c) c.current + t) % (sortedNames c).length) "")).getD 0 ""
        = (sortedNames c).getD
            ((rotStart (sortedNames c) c.current + 0) % (sortedNames c).length) "" := by
      rw [List.getD_eq_getElem _ _ (by simpa using hpos)]
      simp [List.getD_eq_getElem _ _ (Nat.mod_lt _ hpos)]
    rw [h0]
    congr 1
    simp only [List.map_cons, List.map_nil]
    congr 2
    rw [Nat.add_zero, Nat.add_mod_right]

theorem rotation_cycle_spec_witness :
    (iterRotateConfig cfgC2w 2).current = some "a" ∧
    (rotations (sortedNames cfgC2w) cfgC2w.current (sortedNames cfgC2w).length).Perm
      (sortedNames cfgC2w) ∧
    (iterRotateConfig cfgC2w 1).current =
      some ((rotations (sortedNames cfgC2w) cfgC2w.current
        (sortedNames cfgC2w).length).getD 0 "") := by
  have h := rotation_cycle_spec cfgC2w (by decide) (by decide)
  refine ⟨?_, h.2.1, h.1 0 (by decide)⟩
  have h3 := h.2.2.1 "a" rfl (by decide)
  have hlen : (sortedNames cfgC2w).length = 2 := by decide
  rw [hlen] at h3
  exact h3
